import Mathlib

/-!
Verification development for the TurbuStat delta-variance module
(`turbustat/statistics/delta_variance/delta_variance.py`).

Numeric model: IEEE floats are modelled by `FVal`, a rational number or a
NaN marker.  NaN propagates through arithmetic exactly as in numpy.  Real
rounding is idealised away (values are exact rationals), and division of a
nonzero value by zero, which produces an IEEE infinity, is collapsed to the
NaN marker; the claims settled over this model never divide by zero except
where the theorem statement makes the zero divisor explicit.
-/

/-- Model of a numpy float64 cell: either NaN or an exact value. -/
inductive FVal where
  | nan : FVal
  | val : ℚ → FVal
deriving DecidableEq, Repr

/-- Float subtraction; NaN propagates. -/
def FVal.sub : FVal → FVal → FVal
  | .val a, .val b => .val (a - b)
  | _, _ => .nan

/-- Float multiplication; NaN propagates. -/
def FVal.mul : FVal → FVal → FVal
  | .val a, .val b => .val (a * b)
  | _, _ => .nan

/-- Float squaring (`x ** 2.`); NaN propagates. -/
def FVal.pow2 : FVal → FVal
  | .val a => .val (a ^ 2)
  | .nan => .nan

/-- Float division; NaN propagates, and a zero divisor gives a non-value
(IEEE inf and NaN are both collapsed to the NaN marker). -/
def FVal.div : FVal → FVal → FVal
  | .val a, .val b => if b = 0 then .nan else .val (a / b)
  | _, _ => .nan

/-- The rational carried by a non-NaN cell. -/
def FVal.toQ : FVal → Option ℚ
  | .val a => some a
  | .nan => none

/-- The non-NaN cells of an array, in order. -/
def finiteCells (l : List FVal) : List ℚ := l.filterMap FVal.toQ

/-- Model of `np.nansum(l)`: sum of the non-NaN cells (all-NaN sums to 0). -/
def nansum (l : List FVal) : ℚ := (finiteCells l).sum

/-- Model of `scipy.stats.nanmean(l, axis=None)`: arithmetic mean of the
non-NaN cells; NaN when every cell is NaN. -/
def nanmean (l : List FVal) : FVal :=
  if (finiteCells l).length = 0 then .nan
  else .val ((finiteCells l).sum / (finiteCells l).length)

/-- Embedding of `_delvar(array, weight)` (delta_variance.py lines 326-335):
`avg_value = nanmean(array)` followed by
`np.nansum((array - avg_value) ** 2. * weight) / np.nansum(weight)`.
Arrays are flattened (numpy reductions use `axis=None`). -/
def delvar (array weight : List FVal) : FVal :=
  let avg_value := nanmean array
  let num := nansum (List.zipWith (fun a w => ((a.sub avg_value).pow2).mul w) array weight)
  let den := nansum weight
  if den = 0 then .nan else .val (num / den)

/-- Spec-side unweighted arithmetic mean over the non-NaN cells of a field. -/
def unweightedMean (l : List FVal) : ℚ := (finiteCells l).sum / (finiteCells l).length

/-- Spec-side variance numerator: the sum, over cells where both the field
and the weight are non-NaN, of `(field - m)^2 * weight`. -/
def delvarNum (array weight : List FVal) (m : ℚ) : ℚ :=
  ((array.zip weight).filterMap (fun p =>
    match p with
    | (.val a, .val w) => some ((a - m) ^ 2 * w)
    | _ => none)).sum

theorem nansum_zipWith_eq_delvarNum (m : ℚ) :
    ∀ (a w : List FVal),
      nansum (List.zipWith (fun x y => ((x.sub (FVal.val m)).pow2).mul y) a w)
        = delvarNum a w m := by
  intro a
  induction a with
  | nil => intro w; cases w <;> rfl
  | cons x xs ih =>
    intro w
    cases w with
    | nil => rfl
    | cons y ys =>
      cases x <;> cases y <;>
        simpa [nansum, finiteCells, delvarNum, FVal.sub, FVal.pow2, FVal.mul, FVal.toQ,
          List.zipWith, List.zip] using ih ys

/-- Claim C1: `_delvar` returns the sum over non-NaN cells of
`(field - m)^2 * weight`, divided by the sum over non-NaN cells of the
weight, where `m` is the UNWEIGHTED arithmetic mean over the non-NaN cells
of the field — the weight field plays no role in the mean, only in the
variance sums. -/
theorem delvar_is_unweighted_mean_variance (array weight : List FVal)
    (hmean : finiteCells array ≠ [])
    (hden : nansum weight ≠ 0) :
    delvar array weight =
      .val (delvarNum array weight (unweightedMean array) / nansum weight) := by
  have hm : nanmean array = .val (unweightedMean array) := by
    rw [nanmean, if_neg (by simpa [List.length_eq_zero] using hmean)]
    rfl
  rw [delvar]
  simp only [hm, nansum_zipWith_eq_delvarNum, if_neg hden]

/-- Witness for claim C1 at a concrete field and weight map (one NaN in
each, mean of the field is 2, variance sum 2, weight sum 4). -/
theorem delvar_is_unweighted_mean_variance_witness :
    finiteCells [FVal.val 1, FVal.nan, FVal.val 3] ≠ [] ∧
    nansum [FVal.val 2, FVal.val 2, FVal.nan] ≠ 0 ∧
    delvar [FVal.val 1, FVal.nan, FVal.val 3] [FVal.val 2, FVal.val 2, FVal.nan] =
      .val (delvarNum [FVal.val 1, FVal.nan, FVal.val 3] [FVal.val 2, FVal.val 2, FVal.nan]
              (unweightedMean [FVal.val 1, FVal.nan, FVal.val 3]) /
            nansum [FVal.val 2, FVal.val 2, FVal.nan]) :=
  ⟨by decide, by norm_num [nansum, finiteCells, FVal.toQ, List.filterMap_cons],
   delvar_is_unweighted_mean_variance _ _ (by decide)
     (by norm_num [nansum, finiteCells, FVal.toQ, List.filterMap_cons])⟩

/-- Embedding of `bootstrap_resample(X)` (delta_variance.py lines 338-358)
as called from `compute_deltavar` with a 2-D convolved array `X` (a list of
rows).  `np.random.rand(n)` with `n = len(X)` is modelled by consuming the
first `len(X)` draws of the uniform stream `rand`; `len(X)` of a 2-D numpy
array is its number of ROWS, and `X[resample_i]` selects whole rows. -/
def bootstrap_resample (X : List (List FVal)) (rand : List ℚ) : List (List FVal) :=
  let resample_i := (rand.take X.length).map (fun r => (⌊r * (X.length : ℚ)⌋).toNat)
  resample_i.map (fun i => X.getD i [])

/-- Model of the claim and spec wording for the bootstrap draw (NOT the
code): sample indices into the FLATTENED population of all cells, with one
uniform draw per cell, producing a flat resample with as many entries as
the field has cells. -/
def bootstrap_resample_flat (X : List (List FVal)) (rand : List ℚ) : List FVal :=
  let population := X.flatten
  (rand.take population.length).map
    (fun r => population.getD (⌊r * (population.length : ℚ)⌋).toNat .nan)

/-- One two-dimensional delta-variance reduction: numpy reductions with
`axis=None` flatten the array, so the 2-D `_delvar` is `_delvar` of the
row-concatenations. -/
def delvar2 (array weight : List (List FVal)) : FVal :=
  delvar array.flatten weight.flatten

/-- One bootstrap iteration of `compute_deltavar` (lines 124-126): resample
the convolved array and reduce it against the ORIGINAL convolved weight. -/
def bootstrapIter (conv_array conv_weight : List (List FVal)) (rand : List ℚ) : FVal :=
  delvar2 (bootstrap_resample conv_array rand) conv_weight

/-- Counterexample to claim C2: on the 2x2 field [[1,2],[3,4]] with the
uniform stream 1/4, 1/4, 1/4, 1/4, the code's resample consumes two draws
and repeats row [1,2] twice (flattening to [1,2,1,2]), while resampling the
flattened cell population as the claim states consumes four draws and
yields [2,2,2,2]; the two disagree, so the resample is not drawn from the
flattened field. -/
theorem bootstrap_resample_not_flat :
    (bootstrap_resample [[FVal.val 1, FVal.val 2], [FVal.val 3, FVal.val 4]]
        [1/4, 1/4, 1/4, 1/4]).flatten
      ≠ bootstrap_resample_flat [[FVal.val 1, FVal.val 2], [FVal.val 3, FVal.val 4]]
        [1/4, 1/4, 1/4, 1/4] := by
  norm_num [bootstrap_resample, bootstrap_resample_flat, List.take, List.flatten]

/-- Claim C2 as amended: each bootstrap iteration resamples the ROWS of the
difference field: one uniform draw per row, index `⌊r * nrows⌋` into the
row list, with replacement; the resample has the same number of rows as the
original field, every resampled row is a row of the original, and the
delta-variance of the resample is computed against the original weight
field. -/
theorem bootstrap_resample_rows (X w : List (List FVal)) (rand : List ℚ)
    (hlen : X.length ≤ rand.length)
    (hr : ∀ r ∈ rand, 0 ≤ r ∧ r < 1) :
    (bootstrap_resample X rand).length = X.length ∧
    (∀ row ∈ bootstrap_resample X rand, row ∈ X) ∧
    bootstrapIter X w rand = delvar2 (bootstrap_resample X rand) w := by
  refine ⟨?_, ?_, rfl⟩
  · simp [bootstrap_resample, hlen]
  · intro row hrow
    simp only [bootstrap_resample, List.map_map, List.mem_map, Function.comp] at hrow
    obtain ⟨r, hrmem, rfl⟩ := hrow
    have hrand : r ∈ rand := List.take_subset _ _ hrmem
    obtain ⟨hr0, hr1⟩ := hr r hrand
    have hL : 0 < X.length := by
      rcases Nat.eq_zero_or_pos X.length with h0 | h
      · rw [h0] at hrmem; simp at hrmem
      · exact h
    have hfl : ⌊r * (X.length : ℚ)⌋ < (X.length : ℤ) := by
      rw [Int.floor_lt]
      push_cast
      calc r * (X.length : ℚ) < 1 * (X.length : ℚ) := by
            apply mul_lt_mul_of_pos_right hr1
            exact_mod_cast hL
        _ = (X.length : ℚ) := one_mul _
    have hge : 0 ≤ ⌊r * (X.length : ℚ)⌋ :=
      Int.floor_nonneg.mpr (mul_nonneg hr0 (by positivity))
    have hidx : (⌊r * (X.length : ℚ)⌋).toNat < X.length := by omega
    rw [List.getD_eq_getElem _ _ hidx]
    exact List.getElem_mem hidx

/-- Witness for the amended claim C2 at a concrete 2x2 field, all-ones
weight, and the uniform stream 1/4, 3/4. -/
theorem bootstrap_resample_rows_witness :
    ([[FVal.val 1, FVal.val 2], [FVal.val 3, FVal.val 4]] : List (List FVal)).length ≤
      ([1/4, 3/4] : List ℚ).length ∧
    (∀ r ∈ ([1/4, 3/4] : List ℚ), 0 ≤ r ∧ r < 1) ∧
    ((bootstrap_resample [[FVal.val 1, FVal.val 2], [FVal.val 3, FVal.val 4]]
        [1/4, 3/4]).length = 2 ∧
      (∀ row ∈ bootstrap_resample [[FVal.val 1, FVal.val 2], [FVal.val 3, FVal.val 4]]
        [1/4, 3/4], row ∈ [[FVal.val 1, FVal.val 2], [FVal.val 3, FVal.val 4]]) ∧
      bootstrapIter [[FVal.val 1, FVal.val 2], [FVal.val 3, FVal.val 4]]
          [[FVal.val 1, FVal.val 1], [FVal.val 1, FVal.val 1]] [1/4, 3/4] =
        delvar2 (bootstrap_resample [[FVal.val 1, FVal.val 2], [FVal.val 3, FVal.val 4]]
          [1/4, 3/4]) [[FVal.val 1, FVal.val 1], [FVal.val 1, FVal.val 1]]) :=
  ⟨by decide, by norm_num,
   bootstrap_resample_rows _ _ _ (by decide) (by norm_num)⟩

/-- One coordinate of the kernel grid: `np.arange(-n/2, n/2 + 1, 1)` under
Python-2 floor division starts at `(-n).fdiv 2` and has `n + 1` entries. -/
noncomputable def gridpt (n : ℕ) (i : ℕ) : ℝ := (((-(n : ℤ)).fdiv 2 + (i : ℤ) : ℤ) : ℝ)

/-- Squared radius `x^2 + y^2` at grid position (i, j) of the meshgrid built
from sizes `x_size` and `y_size`. -/
noncomputable def radius2 (x_size y_size : ℕ) (i j : ℕ) : ℝ :=
  gridpt x_size i ^ 2 + gridpt y_size j ^ 2

/-- Sum of a kernel over the whole (x_size+1) x (y_size+1) grid, the model
of `np.sum(kernel)`. -/
noncomputable def kernelSum (f : ℕ → ℕ → ℝ) (x_size y_size : ℕ) : ℝ :=
  ∑ i in Finset.range (x_size + 1), ∑ j in Finset.range (y_size + 1), f i j

/-- Unnormalized core kernel entry (delta_variance.py lines 186-189):
`(4 / pi * lag) * exp(-(x^2 + y^2) / (lag / 2)^2)`. -/
noncomputable def core_kernel_raw (lag : ℝ) (x_size y_size : ℕ) (i j : ℕ) : ℝ :=
  4 / Real.pi * lag * Real.exp (-(radius2 x_size y_size i j) / (lag / 2) ^ 2)

/-- Embedding of `core_kernel(lag, x_size, y_size)`: the unnormalized kernel
divided by its own sum (line 191). -/
noncomputable def core_kernel (lag : ℝ) (x_size y_size : ℕ) (i j : ℕ) : ℝ :=
  core_kernel_raw lag x_size y_size i j / kernelSum (core_kernel_raw lag x_size y_size) x_size y_size

/-- Unnormalized annulus kernel entry (delta_variance.py lines 217-223):
`4 / (pi * lag * (diam_ratio^2 - 1)) * (outer - inner)` with
`inner = exp(-(x^2+y^2) / (lag/2)^2)` and
`outer = exp(-(x^2+y^2) / (diam_ratio * lag / 2)^2)`. -/
noncomputable def annulus_kernel_raw (lag diam_ratio : ℝ) (x_size y_size : ℕ) (i j : ℕ) : ℝ :=
  4 / (Real.pi * lag * (diam_ratio ^ 2 - 1)) *
    (Real.exp (-(radius2 x_size y_size i j) / (diam_ratio * lag / 2) ^ 2) -
     Real.exp (-(radius2 x_size y_size i j) / (lag / 2) ^ 2))

/-- Embedding of `annulus_kernel(lag, diam_ratio, x_size, y_size)`: the
unnormalized kernel divided by its own sum (line 225).  The function body
performs NO validation of `diam_ratio`. -/
noncomputable def annulus_kernel (lag diam_ratio : ℝ) (x_size y_size : ℕ) (i j : ℕ) : ℝ :=
  annulus_kernel_raw lag diam_ratio x_size y_size i j /
    kernelSum (annulus_kernel_raw lag diam_ratio x_size y_size) x_size y_size

theorem kernelSum_div (f : ℕ → ℕ → ℝ) (x_size y_size : ℕ) (c : ℝ) :
    kernelSum (fun i j => f i j / c) x_size y_size = kernelSum f x_size y_size / c := by
  simp [kernelSum, Finset.sum_div]

theorem kernelSum_norm_one (f : ℕ → ℕ → ℝ) (x_size y_size : ℕ)
    (h : kernelSum f x_size y_size ≠ 0) :
    kernelSum (fun i j => f i j / kernelSum f x_size y_size) x_size y_size = 1 := by
  rw [kernelSum_div, div_self h]

theorem core_sum_pos (lag : ℝ) (x_size y_size : ℕ) (hlag : 0 < lag) :
    0 < kernelSum (core_kernel_raw lag x_size y_size) x_size y_size := by
  apply Finset.sum_pos _ (by simp)
  intro i _
  apply Finset.sum_pos _ (by simp)
  intro j _
  rw [core_kernel_raw]
  have hpi : (0:ℝ) < Real.pi := Real.pi_pos
  positivity

/-- A grid with `x_size ≥ 1` always contains a coordinate with a nonzero
grid point: positions 0 and `x_size` differ by `x_size`. -/
theorem exists_nonzero_gridpt (x_size : ℕ) (hx : 1 ≤ x_size) :
    ∃ i ∈ Finset.range (x_size + 1), gridpt x_size i ≠ 0 := by
  by_cases h0 : gridpt x_size 0 = 0
  · refine ⟨x_size, by simp, ?_⟩
    have hstep : gridpt x_size x_size = gridpt x_size 0 + x_size := by
      rw [gridpt, gridpt]
      push_cast
      ring
    rw [hstep, h0, zero_add]
    have : (0:ℝ) < x_size := by exact_mod_cast hx
    exact ne_of_gt this
  · exact ⟨0, by simp, h0⟩

theorem annulus_raw_nonneg (lag diam_ratio : ℝ) (x_size y_size : ℕ)
    (hlag : 0 < lag) (hdr0 : 0 < diam_ratio) (hdr1 : diam_ratio ≠ 1) (i j : ℕ) :
    0 ≤ annulus_kernel_raw lag diam_ratio x_size y_size i j := by
  have hpi : (0:ℝ) < Real.pi := Real.pi_pos
  have hr2 : 0 ≤ radius2 x_size y_size i j := by rw [radius2]; positivity
  rw [annulus_kernel_raw]
  rcases lt_or_gt_of_ne hdr1 with hlt | hgt
  · -- diam_ratio < 1: negative prefactor times nonpositive difference
    have hden : Real.pi * lag * (diam_ratio ^ 2 - 1) < 0 :=
      mul_neg_of_pos_of_neg (mul_pos hpi hlag) (by nlinarith)
    have hpre : 4 / (Real.pi * lag * (diam_ratio ^ 2 - 1)) < 0 :=
      div_neg_of_pos_of_neg (by norm_num) hden
    have hdiff : Real.exp (-(radius2 x_size y_size i j) / (diam_ratio * lag / 2) ^ 2) -
        Real.exp (-(radius2 x_size y_size i j) / (lag / 2) ^ 2) ≤ 0 := by
      rw [sub_nonpos]
      apply Real.exp_le_exp.mpr
      rw [neg_div, neg_div, neg_le_neg_iff]
      apply div_le_div_of_nonneg_left hr2 (by positivity)
      nlinarith
    have h := mul_nonneg (neg_nonneg.mpr hpre.le) (neg_nonneg.mpr hdiff)
    rw [neg_mul_neg] at h
    exact h
  · -- diam_ratio > 1: positive prefactor times nonnegative difference
    have hden : 0 < Real.pi * lag * (diam_ratio ^ 2 - 1) :=
      mul_pos (mul_pos hpi hlag) (by nlinarith)
    have hpre : 0 < 4 / (Real.pi * lag * (diam_ratio ^ 2 - 1)) := by positivity
    have hdiff : 0 ≤ Real.exp (-(radius2 x_size y_size i j) / (diam_ratio * lag / 2) ^ 2) -
        Real.exp (-(radius2 x_size y_size i j) / (lag / 2) ^ 2) := by
      rw [sub_nonneg]
      apply Real.exp_le_exp.mpr
      rw [neg_div, neg_div, neg_le_neg_iff]
      apply div_le_div_of_nonneg_left hr2 (by positivity)
      nlinarith
    exact mul_nonneg (le_of_lt hpre) hdiff

theorem annulus_raw_pos (lag diam_ratio : ℝ) (x_size y_size : ℕ)
    (hlag : 0 < lag) (hdr0 : 0 < diam_ratio) (hdr1 : diam_ratio ≠ 1) (i j : ℕ)
    (hr2 : 0 < radius2 x_size y_size i j) :
    0 < annulus_kernel_raw lag diam_ratio x_size y_size i j := by
  have hpi : (0:ℝ) < Real.pi := Real.pi_pos
  rw [annulus_kernel_raw]
  rcases lt_or_gt_of_ne hdr1 with hlt | hgt
  · have hden : Real.pi * lag * (diam_ratio ^ 2 - 1) < 0 :=
      mul_neg_of_pos_of_neg (mul_pos hpi hlag) (by nlinarith)
    have hpre : 4 / (Real.pi * lag * (diam_ratio ^ 2 - 1)) < 0 :=
      div_neg_of_pos_of_neg (by norm_num) hden
    have hdiff : Real.exp (-(radius2 x_size y_size i j) / (diam_ratio * lag / 2) ^ 2) -
        Real.exp (-(radius2 x_size y_size i j) / (lag / 2) ^ 2) < 0 := by
      rw [sub_neg]
      apply Real.exp_lt_exp.mpr
      rw [neg_div, neg_div, neg_lt_neg_iff]
      apply div_lt_div_of_pos_left hr2 (by positivity)
      nlinarith
    exact mul_pos_of_neg_of_neg hpre hdiff
  · have hden : 0 < Real.pi * lag * (diam_ratio ^ 2 - 1) :=
      mul_pos (mul_pos hpi hlag) (by nlinarith)
    have hpre : 0 < 4 / (Real.pi * lag * (diam_ratio ^ 2 - 1)) := by positivity
    have hdiff : 0 < Real.exp (-(radius2 x_size y_size i j) / (diam_ratio * lag / 2) ^ 2) -
        Real.exp (-(radius2 x_size y_size i j) / (lag / 2) ^ 2) := by
      rw [sub_pos]
      apply Real.exp_lt_exp.mpr
      rw [neg_div, neg_div, neg_lt_neg_iff]
      apply div_lt_div_of_pos_left hr2 (by positivity)
      nlinarith
    exact mul_pos hpre hdiff

theorem annulus_sum_pos (lag diam_ratio : ℝ) (x_size y_size : ℕ)
    (hlag : 0 < lag) (hdr0 : 0 < diam_ratio) (hdr1 : diam_ratio ≠ 1)
    (hx : 1 ≤ x_size) :
    0 < kernelSum (annulus_kernel_raw lag diam_ratio x_size y_size) x_size y_size := by
  obtain ⟨i0, hi0mem, hi0⟩ := exists_nonzero_gridpt x_size hx
  apply Finset.sum_pos'
  · intro i _
    apply Finset.sum_nonneg
    intro j _
    exact annulus_raw_nonneg lag diam_ratio x_size y_size hlag hdr0 hdr1 i j
  · refine ⟨i0, hi0mem, ?_⟩
    apply Finset.sum_pos'
    · intro j _
      exact annulus_raw_nonneg lag diam_ratio x_size y_size hlag hdr0 hdr1 i0 j
    · refine ⟨0, by simp, ?_⟩
      apply annulus_raw_pos lag diam_ratio x_size y_size hlag hdr0 hdr1 i0 0
      rw [radius2]
      have h1 : 0 < gridpt x_size i0 ^ 2 := by
        rcases lt_or_gt_of_ne hi0 with h | h <;> nlinarith
      nlinarith [sq_nonneg (gridpt y_size 0)]

theorem annulus_sum_one (lag diam_ratio : ℝ) (x_size y_size : ℕ)
    (hlag : 0 < lag) (hdr0 : 0 < diam_ratio) (hdr1 : diam_ratio ≠ 1)
    (hx : 1 ≤ x_size) :
    kernelSum (annulus_kernel lag diam_ratio x_size y_size) x_size y_size = 1 :=
  kernelSum_norm_one _ _ _
    (ne_of_gt (annulus_sum_pos lag diam_ratio x_size y_size hlag hdr0 hdr1 hx))

theorem core_sum_one (lag : ℝ) (x_size y_size : ℕ) (hlag : 0 < lag) :
    kernelSum (core_kernel lag x_size y_size) x_size y_size = 1 :=
  kernelSum_norm_one (core_kernel_raw lag x_size y_size) x_size y_size
    (ne_of_gt (core_sum_pos lag x_size y_size hlag))

/-- Claim C3: for every lag > 0 and image dimensions H, W ≥ 3, with
diam_ratio > 1 for the annulus, the arrays returned by `core_kernel` and
`annulus_kernel` each sum to 1 (exactly, in the real-number model, hence
within any tolerance), because both are divided by their own sum before
being returned. -/
theorem kernels_sum_to_one (lag diam_ratio : ℝ) (x_size y_size : ℕ)
    (hlag : 0 < lag) (hx : 3 ≤ x_size) (hy : 3 ≤ y_size) (hdr : 1 < diam_ratio) :
    kernelSum (core_kernel lag x_size y_size) x_size y_size = 1 ∧
    kernelSum (annulus_kernel lag diam_ratio x_size y_size) x_size y_size = 1 :=
  ⟨core_sum_one lag x_size y_size hlag,
   annulus_sum_one lag diam_ratio x_size y_size hlag (lt_trans one_pos hdr)
     (ne_of_gt hdr) (le_trans (by norm_num) hx)⟩

/-- Witness for claim C3 at lag 1, diam_ratio 2, on a 3x3 image. -/
theorem kernels_sum_to_one_witness :
    (0:ℝ) < 1 ∧ (3:ℕ) ≤ 3 ∧ (1:ℝ) < 2 ∧
    (kernelSum (core_kernel 1 3 3) 3 3 = 1 ∧
     kernelSum (annulus_kernel 1 2 3 3) 3 3 = 1) :=
  ⟨by norm_num, by norm_num, by norm_num,
   kernels_sum_to_one 1 2 3 3 (by norm_num) (by norm_num) (by norm_num) (by norm_num)⟩

/-- Counterexample to claim C4: calling `annulus_kernel` with
diam_ratio = 1/2 ≤ 1 (lag 1, 3x3 image) raises no error at all — the
function has no validation — and silently returns a numeric array that even
sums to 1. -/
theorem annulus_kernel_silently_returns :
    kernelSum (annulus_kernel 1 (1/2) 3 3) 3 3 = 1 :=
  annulus_sum_one 1 (1/2) 3 3 (by norm_num) (by norm_num) (by norm_num) (by norm_num)

/-- Claim C4 as amended: `annulus_kernel` performs no validation of
diam_ratio; for every 0 < diam_ratio < 1 (with lag > 0 and H, W ≥ 3) it
silently returns a numeric array — indeed a normalized kernel summing
to 1 — rather than failing with a precondition error. -/
theorem annulus_kernel_no_validation (lag diam_ratio : ℝ) (x_size y_size : ℕ)
    (hlag : 0 < lag) (hdr0 : 0 < diam_ratio) (hdr1 : diam_ratio < 1)
    (hx : 3 ≤ x_size) (hy : 3 ≤ y_size) :
    kernelSum (annulus_kernel lag diam_ratio x_size y_size) x_size y_size = 1 :=
  annulus_sum_one lag diam_ratio x_size y_size hlag hdr0 (ne_of_lt hdr1)
    (le_trans (by norm_num) hx)

/-- Witness for the amended claim C4 at lag 2, diam_ratio 3/4, 4x5 image. -/
theorem annulus_kernel_no_validation_witness :
    (0:ℝ) < 2 ∧ (0:ℝ) < 3/4 ∧ (3/4:ℝ) < 1 ∧ (3:ℕ) ≤ 4 ∧ (3:ℕ) ≤ 5 ∧
    kernelSum (annulus_kernel 2 (3/4) 4 5) 4 5 = 1 :=
  ⟨by norm_num, by norm_num, by norm_num, by norm_num, by norm_num,
   annulus_kernel_no_validation 2 (3/4) 4 5 (by norm_num) (by norm_num)
     (by norm_num) (by norm_num) (by norm_num)⟩

/-- Model of `weights[np.where(weights == 0)] = np.NaN` at one cell
(delta_variance.py lines 105-106): an exact zero becomes NaN, every other
value is untouched. -/
def zeroToNan (x : FVal) : FVal := if x = .val 0 then .nan else x

/-- One cell of the normalized difference field built by `do_convolutions`
(lines 105-109): the zero-to-NaN replacement is applied to both convolved
weight fields BEFORE they are used as divisors, then
`(img_core / weights_core) - (img_annulus / weights_annulus)`. -/
def convolvedArrayCell (img_core img_annulus weights_core weights_annulus : FVal) : FVal :=
  (img_core.div (zeroToNan weights_core)).sub (img_annulus.div (zeroToNan weights_annulus))

/-- The full normalized difference field of `do_convolutions`, one lag:
cells are indexed by grid positions. -/
def convolvedArrayField (img_core img_annulus weights_core weights_annulus : ℕ × ℕ → FVal) :
    ℕ × ℕ → FVal :=
  fun c => convolvedArrayCell (img_core c) (img_annulus c) (weights_core c) (weights_annulus c)

/-- Claim C5: at every cell where a convolved weight field (core or
annulus) is exactly zero, the weight is replaced by NaN before it is used
as a divisor — so neither divisor is ever an exact zero — and the
normalized difference field is NaN at that cell. -/
theorem zero_weight_cell_is_nan (img_core img_annulus weights_core weights_annulus : ℕ × ℕ → FVal)
    (c : ℕ × ℕ) (h : weights_core c = .val 0 ∨ weights_annulus c = .val 0) :
    zeroToNan (weights_core c) ≠ .val 0 ∧
    zeroToNan (weights_annulus c) ≠ .val 0 ∧
    convolvedArrayField img_core img_annulus weights_core weights_annulus c = .nan := by
  have hz : ∀ x : FVal, zeroToNan x ≠ .val 0 := by
    intro x
    rw [zeroToNan]
    split
    · simp
    · assumption
  refine ⟨hz _, hz _, ?_⟩
  rw [convolvedArrayField, convolvedArrayCell]
  rcases h with h | h
  · rw [h]
    have : zeroToNan (.val 0) = .nan := by rw [zeroToNan, if_pos rfl]
    rw [this]
    cases img_core c <;> cases (img_annulus c).div (zeroToNan (weights_annulus c)) <;>
      simp [FVal.div, FVal.sub]
  · rw [h]
    have : zeroToNan (.val 0) = .nan := by rw [zeroToNan, if_pos rfl]
    rw [this]
    cases img_annulus c <;> cases (img_core c).div (zeroToNan (weights_core c)) <;>
      simp [FVal.div, FVal.sub]

/-- Witness for claim C5 at a concrete cell: core weight exactly zero,
annulus weight 2, image values 5 and 7. -/
theorem zero_weight_cell_is_nan_witness :
    ((fun _ : ℕ × ℕ => FVal.val 0) (0, 0) = FVal.val 0 ∨
      (fun _ : ℕ × ℕ => FVal.val 2) (0, 0) = FVal.val 0) ∧
    (zeroToNan ((fun _ : ℕ × ℕ => FVal.val 0) (0, 0)) ≠ .val 0 ∧
     zeroToNan ((fun _ : ℕ × ℕ => FVal.val 2) (0, 0)) ≠ .val 0 ∧
     convolvedArrayField (fun _ => FVal.val 5) (fun _ => FVal.val 7)
       (fun _ => FVal.val 0) (fun _ => FVal.val 2) (0, 0) = .nan) :=
  ⟨Or.inl rfl,
   zero_weight_cell_is_nan (fun _ => FVal.val 5) (fun _ => FVal.val 7)
     (fun _ => FVal.val 0) (fun _ => FVal.val 2) (0, 0) (Or.inl rfl)⟩

/-- Python `int()` applied to a (here rational-modelled) float: truncation
toward zero. -/
def pyInt (q : ℚ) : ℤ := if 0 ≤ q then ⌊q⌋ else -⌊-q⌋

/-- Model of `np.sort` on a 1-D array: ascending sort. -/
def sortAsc (l : List ℚ) : List ℚ := l.insertionSort (· ≤ ·)

/-- Embedding of the confidence-interval extraction of `compute_deltavar`
(delta_variance.py lines 128-130): sort the bootstrap values and take the
entries at positions `int((alpha/2)*nsamples)` and
`int((1-alpha/2)*nsamples)`. -/
def bootstrapError (vals : List ℚ) (nsamples : ℕ) (alpha : ℚ) : ℚ × ℚ :=
  let stat := sortAsc vals
  (stat.getD (pyInt (alpha / 2 * nsamples)).toNat 0,
   stat.getD (pyInt ((1 - alpha / 2) * nsamples)).toNat 0)

/-- Embedding of the per-lag error branch of `compute_deltavar` (lines
122-132): the bootstrap interval when bootstrapping is enabled, and the
pair (0, 0) when it is disabled. -/
def deltavarError (bootstrap : Bool) (vals : List ℚ) (nsamples : ℕ) (alpha : ℚ) : ℚ × ℚ :=
  if bootstrap then bootstrapError vals nsamples alpha else (0, 0)

theorem pyInt_eq_floor (q : ℚ) (h : 0 ≤ q) : pyInt q = ⌊q⌋ := if_pos h

/-- Claim C6: with bootstrap enabled the stored interval is the pair of
order statistics of the ascending-sorted bootstrap values at indices
`⌊nsamples * alpha / 2⌋` and `⌊nsamples * (1 - alpha / 2)⌋` (no continuous
percentile interpolation); at the defaults nsamples = 100, alpha = 1/20
these are indices 2 and 97; with bootstrap disabled both bounds are 0. -/
theorem bootstrap_ci_order_statistics :
    (∀ (vals : List ℚ) (nsamples : ℕ) (alpha : ℚ), 0 ≤ alpha → alpha ≤ 1 →
      deltavarError true vals nsamples alpha =
        ((sortAsc vals).getD (⌊(nsamples : ℚ) * (alpha / 2)⌋).toNat 0,
         (sortAsc vals).getD (⌊(nsamples : ℚ) * (1 - alpha / 2)⌋).toNat 0)) ∧
    (∀ vals : List ℚ, deltavarError true vals 100 (1/20) =
      ((sortAsc vals).getD 2 0, (sortAsc vals).getD 97 0)) ∧
    (∀ (vals : List ℚ) (nsamples : ℕ) (alpha : ℚ),
      deltavarError false vals nsamples alpha = (0, 0)) := by
  refine ⟨?_, ?_, fun vals nsamples alpha => rfl⟩
  · intro vals nsamples alpha h0 h1
    rw [deltavarError, if_pos rfl, bootstrapError]
    have e1 : alpha / 2 * nsamples = (nsamples : ℚ) * (alpha / 2) := by ring
    have e2 : (1 - alpha / 2) * nsamples = (nsamples : ℚ) * (1 - alpha / 2) := by ring
    rw [e1, e2, pyInt_eq_floor _ (by positivity),
      pyInt_eq_floor _ (mul_nonneg (Nat.cast_nonneg _) (by linarith))]
  · intro vals
    rw [deltavarError, if_pos rfl, bootstrapError]
    norm_num [pyInt]
    exact ⟨rfl, rfl⟩

/-- Witness for claim C6: the first conjunct applied at the values [3, 1],
nsamples 2, alpha 1/2. -/
theorem bootstrap_ci_order_statistics_witness :
    (0:ℚ) ≤ 1/2 ∧ (1/2:ℚ) ≤ 1 ∧
    deltavarError true [3, 1] 2 (1/2) =
      ((sortAsc [3, 1]).getD (⌊(2 : ℚ) * (1/2 / 2)⌋).toNat 0,
       (sortAsc [3, 1]).getD (⌊(2 : ℚ) * (1 - 1/2 / 2)⌋).toNat 0) :=
  ⟨by norm_num, by norm_num,
   bootstrap_ci_order_statistics.1 [3, 1] 2 (1/2) (by norm_num) (by norm_num)⟩

/-- Python slice assignment `vector[:p] = 0` on a rank-1 vector modelled as
a function on indices. -/
def sliceHeadZero (p : ℕ) (v : ℕ → ℚ) : ℕ → ℚ :=
  fun i => if i < p then 0 else v i

/-- Python slice assignment `vector[-p:] = 0` on a rank-1 vector of length
`n`: for p = 0 the slice `[-0:]` is the WHOLE vector (Python's -0 is 0), so
every entry is zeroed; for p > 0 the last p entries are zeroed. -/
def sliceTailZero (n p : ℕ) (v : ℕ → ℚ) : ℕ → ℚ :=
  fun i => if p = 0 then 0 else if n - p ≤ i then 0 else v i

/-- Embedding of `padwithzeros(vector, pad_width, ...)` (delta_variance.py
lines 228-234) on a rank-1 vector of length `n` with pad widths
`(p0, p1)`. -/
def padwithzeros (n p0 p1 : ℕ) (v : ℕ → ℚ) : ℕ → ℚ :=
  sliceTailZero n p1 (sliceHeadZero p0 v)

/-- The zero-initialized enlarged array of numpy's function-mode `np.pad`:
the original H x W block sits at offset `pad` inside an
(H + 2 pad) x (W + 2 pad) array of zeros. -/
def embedWithZeros (H W pad : ℕ) (a : ℕ → ℕ → ℚ) : ℕ → ℕ → ℚ :=
  fun i j => if pad ≤ i ∧ i < pad + H ∧ pad ≤ j ∧ j < pad + W then a (i - pad) (j - pad) else 0

/-- Application of the padding function along axis 0 (each column of length
`n` is passed through `padwithzeros`). -/
def applyAxis0 (n pad : ℕ) (m : ℕ → ℕ → ℚ) : ℕ → ℕ → ℚ :=
  fun i j => padwithzeros n pad pad (fun k => m k j) i

/-- Application of the padding function along axis 1 (each row of length
`n` is passed through `padwithzeros`). -/
def applyAxis1 (n pad : ℕ) (m : ℕ → ℕ → ℚ) : ℕ → ℕ → ℚ :=
  fun i j => padwithzeros n pad pad (m i) j

/-- Model of `np.pad(a, pad, padwithzeros)` for a 2-D array (the call on
delta_variance.py lines 81-82): numpy's function mode builds the
zero-initialized enlarged array and applies the padding function along each
axis in turn. -/
def npPad (H W pad : ℕ) (a : ℕ → ℕ → ℚ) : ℕ → ℕ → ℚ :=
  applyAxis1 (W + 2 * pad) pad (applyAxis0 (H + 2 * pad) pad (embedWithZeros H W pad a))

/-- Cropping `pad` cells from every edge of a padded array. -/
def cropPad (pad : ℕ) (m : ℕ → ℕ → ℚ) : ℕ → ℕ → ℚ :=
  fun i j => m (i + pad) (j + pad)

/-- Counterexample to claim C7: at pad width 0 the slice `vector[-0:] = 0`
zeroes the ENTIRE vector, so padding the 1x1 array [[1]] by 0 and cropping
0 cells back yields 0, not the original 1 — the round-trip fails at pad
width 0. -/
theorem padwithzeros_roundtrip_fails_at_zero :
    cropPad 0 (npPad 1 1 0 (fun _ _ => (1 : ℚ))) 0 0 ≠ (1 : ℚ) := by
  decide

/-- Claim C7 as amended: for every array and every POSITIVE pad width, the
padding operation returns the array enlarged by `pad` on every edge with
all padding cells equal to zero, and cropping `pad` cells from every edge
reproduces the original array exactly; at pad width 0 the round-trip fails
(the padding function zeroes the whole array). -/
theorem npPad_roundtrip (H W pad : ℕ) (a : ℕ → ℕ → ℚ) (hp : 1 ≤ pad) :
    (∀ i j, i < H → j < W → cropPad pad (npPad H W pad a) i j = a i j) ∧
    (∀ i j, i < H + 2 * pad → j < W + 2 * pad →
      (i < pad ∨ pad + H ≤ i ∨ j < pad ∨ pad + W ≤ j) →
      npPad H W pad a i j = 0) := by
  constructor
  · intro i j hi hj
    have e1 : i + pad - pad = i := by omega
    have e2 : j + pad - pad = j := by omega
    simp only [cropPad, npPad, applyAxis1, applyAxis0, padwithzeros, sliceTailZero,
      sliceHeadZero, embedWithZeros]
    split_ifs <;> first | (rw [e1, e2]) | omega
  · intro i j hi hj hedge
    simp only [npPad, applyAxis1, applyAxis0, padwithzeros, sliceTailZero,
      sliceHeadZero, embedWithZeros]
    split_ifs <;> first | rfl | omega

/-- Witness for the amended claim C7: pad the 1x1 array [[5]] by 1 and crop
it back; the original cell is recovered. -/
theorem npPad_roundtrip_witness :
    (1 : ℕ) ≤ 1 ∧ cropPad 1 (npPad 1 1 1 (fun _ _ => (5 : ℚ))) 0 0 = 5 :=
  ⟨le_refl 1,
   (npPad_roundtrip 1 1 1 (fun _ _ => (5 : ℚ)) (le_refl 1)).1 0 0 (by decide) (by decide)⟩

/-- Python exceptions relevant to `DeltaVariance.__init__`. -/
inductive PyExc where
  | keyError : PyExc
  | valueError : PyExc
deriving DecidableEq, Repr

/-- Model of the FITS-header subscript `header["CDELT2"]`: a Python mapping
lookup raises KeyError when the keyword is absent.  The header is modelled
by its optional CDELT2 entry (degrees per pixel). -/
def headerCDELT2 (cdelt2 : Option ℚ) : Except PyExc ℚ :=
  match cdelt2 with
  | some v => .ok v
  | none => .error .keyError

/-- The `min_size` computation of the try block (delta_variance.py lines
54-59): `(0.1 arcmin) / (CDELT2 deg in arcmin)` = `(1/10) / (60 * CDELT2)`,
clamped to 3 when below 3 or above half the smaller image dimension. -/
def minSizeFromAng (cdelt2 shape_min : ℚ) : ℚ :=
  let min_size := (1/10) / (60 * cdelt2)
  if min_size < 3 ∨ min_size > shape_min / 2 then 3 else min_size

/-- Model of `np.logspace(a, b, num)`: `num` points `10^(a + k*(b-a)/(num-1))`. -/
noncomputable def logspace (a b : ℝ) (num : ℕ) : List ℝ :=
  (List.range num).map (fun k => (10 : ℝ) ^ (a + (b - a) * k / ((num : ℝ) - 1)))

/-- Embedding of the lag set-up of `DeltaVariance.__init__` with
`lags=None` (delta_variance.py lines 51-65): the try block looks up CDELT2
(raising KeyError when absent), and the `except ValueError` clause — the
only handler — catches ONLY ValueError, re-raising anything else.  On
success it returns the angular size (1.0 in pixel units on the fallback
path) and the 25 log-spaced lags. -/
noncomputable def initAngSizeLags (cdelt2 : Option ℚ) (shape_min : ℚ) :
    Except PyExc (ℚ × List ℝ) :=
  match headerCDELT2 cdelt2 with
  | .ok v =>
      .ok (v, logspace (Real.logb 10 (minSizeFromAng v shape_min))
                (Real.logb 10 (shape_min / 2)) 25)
  | .error e =>
      if e = .valueError then
        .ok (1, logspace (Real.logb 10 3) (Real.logb 10 (shape_min / 2)) 25)
      else .error e

/-- Claim C8 evaluated on the code at the failing input: a header with no
CDELT2 entry makes `DeltaVariance.__init__` raise KeyError — the
`except ValueError` handler does not catch it, so the pixel-unit fallback
and the auto-generated lags are never reached and construction fails. -/
theorem init_missing_cdelt2_raises :
    initAngSizeLags none 64 = .error .keyError := rfl

/-- Embedding of `DeltaVariance_Distance.distance_metric` (delta_variance.py
lines 280-296): the bootstrap error spreads `errors1`/`errors2` are
computed but never used; the stored distance is the Euclidean norm of the
difference of the log10 curves. -/
noncomputable def distance_metric (delta_var1 delta_var2 : List ℝ)
    (delta_var_error1 delta_var_error2 : List (ℝ × ℝ)) : ℝ :=
  let errors1 := delta_var_error1.map (fun p => |p.2 - p.1|)
  let errors2 := delta_var_error2.map (fun p => |p.2 - p.1|)
  Real.sqrt ((List.zipWith (fun a b => (Real.logb 10 a - Real.logb 10 b) ^ 2)
    delta_var1 delta_var2).sum)

/-- Claim C9: the stored distance is exactly the unweighted L2 norm of
log10(curve 1) minus log10(curve 2), and two runs that differ only in the
stored bootstrap error arrays produce the identical distance — the error
spreads never influence the result. -/
theorem distance_metric_ignores_errors (dv1 dv2 : List ℝ)
    (e1 e2 e1' e2' : List (ℝ × ℝ)) :
    distance_metric dv1 dv2 e1 e2 =
      Real.sqrt ((List.zipWith (fun a b => (Real.logb 10 a - Real.logb 10 b) ^ 2)
        dv1 dv2).sum) ∧
    distance_metric dv1 dv2 e1 e2 = distance_metric dv1 dv2 e1' e2' :=
  ⟨rfl, rfl⟩

/-- The mutable state of a `DeltaVariance` instance relevant to `run`. -/
structure DeltaVarianceState where
  lags : List ℚ
  ang_size : ℚ
  delta_var : List ℚ

/-- Embedding of `DeltaVariance.run` (delta_variance.py lines 139-145): the
delta-variance curve is computed from the CURRENT (pixel-unit) `self.lags`
by `do_convolutions`/`compute_deltavar` — abstracted as the function
`curve` — and afterwards, when `ang_units` is true (its default),
`self.lags *= self.ang_size` rescales the stored lags in place. -/
def run (curve : List ℚ → List ℚ) (ang_units : Bool) (s : DeltaVarianceState) :
    DeltaVarianceState :=
  { s with
    delta_var := curve s.lags,
    lags := if ang_units then s.lags.map (fun l => l * s.ang_size) else s.lags }

theorem map_eq_self_forall {α : Type} (f : α → α) :
    ∀ l : List α, l.map f = l → ∀ x ∈ l, f x = x := by
  intro l
  induction l with
  | nil => intro _ x hx; cases hx
  | cons y ys ih =>
    intro h x hx
    rw [List.map_cons, List.cons.injEq] at h
    rw [List.mem_cons] at hx
    rcases hx with hx | hx
    · rw [hx]; exact h.1
    · exact ih h.2 x hx

/-- Claim C10: `run` with `ang_units` at its default True mutates
`self.lags` in place, multiplying every lag by the angular scale after the
curve is computed from the pixel-unit lags; the stored lags are then no
longer the lag set the curve was computed from, and a second `run` scales
them again. -/
theorem run_mutates_lags (curve : List ℚ → List ℚ) (s : DeltaVarianceState)
    (ha : s.ang_size ≠ 1) (hl : ∃ l ∈ s.lags, l ≠ 0) :
    (run curve true s).delta_var = curve s.lags ∧
    (run curve true s).lags = s.lags.map (fun l => l * s.ang_size) ∧
    (run curve true s).lags ≠ s.lags ∧
    (run curve true (run curve true s)).lags =
      s.lags.map (fun l => l * s.ang_size * s.ang_size) := by
  refine ⟨rfl, rfl, ?_, ?_⟩
  · intro hcontra
    obtain ⟨l, hmem, hl0⟩ := hl
    have heq : l * s.ang_size = l :=
      map_eq_self_forall _ s.lags (by simpa [run] using hcontra) l hmem
    exact ha (by field_simp at heq; exact heq)
  · simp [run, List.map_map, Function.comp, mul_assoc]

/-- Witness for claim C10 at a concrete state with lags [2, 3], angular
scale 5, and the identity curve. -/
theorem run_mutates_lags_witness :
    (DeltaVarianceState.mk [2, 3] 5 []).ang_size ≠ 1 ∧
    (∃ l ∈ (DeltaVarianceState.mk [2, 3] 5 []).lags, l ≠ 0) ∧
    ((run id true (DeltaVarianceState.mk [2, 3] 5 [])).delta_var = id [2, 3] ∧
     (run id true (DeltaVarianceState.mk [2, 3] 5 [])).lags =
       ([2, 3] : List ℚ).map (fun l => l * 5) ∧
     (run id true (DeltaVarianceState.mk [2, 3] 5 [])).lags ≠ [2, 3] ∧
     (run id true (run id true (DeltaVarianceState.mk [2, 3] 5 []))).lags =
       ([2, 3] : List ℚ).map (fun l => l * 5 * 5)) :=
  ⟨by norm_num, ⟨2, by norm_num⟩,
   run_mutates_lags id (DeltaVarianceState.mk [2, 3] 5 [])
     (by norm_num) ⟨2, by norm_num⟩⟩
